import Mathlib

/-!
Shallow embedding of `tools/build-axolotl-rotations-json.mjs`, the
rotation-table extraction engine of the dfbnb-data repository.  Pure string
processing is modelled on `List Char`; the filesystem interaction of the
file selector is modelled as an explicit value describing the directory
tree.  JavaScript regular-expression matching is embedded as executable
scanners that reproduce leftmost-match semantics of the three fixed
patterns the tool uses.
-/

namespace Dfbnb

/-- Whitespace recognized by JavaScript `trim` and by the `\s` character
class: the ASCII whitespace characters together with the Unicode spaces
that can plausibly occur in these exports. -/
def isJsWhite (c : Char) : Bool :=
  c = ' ' || c = '\t' || c = '\n' || c = '\r' || c = '\x0b' || c = '\x0c' ||
  c = ' ' || c = '﻿' || c = ' ' || c = ' '

/-- Trim leading and trailing JS whitespace from a character list. -/
def jsTrimList (cs : List Char) : List Char :=
  ((cs.dropWhile isJsWhite).reverse.dropWhile isJsWhite).reverse

/-- `String.prototype.trim`. -/
def jsTrim (s : String) : String :=
  ⟨jsTrimList s.data⟩

/-- Accumulator-style splitter used by `splitChar`. -/
def splitCharAux (sep : Char) : List Char → List Char → List (List Char)
  | [], acc => [acc.reverse]
  | c :: rest, acc =>
      if c = sep then acc.reverse :: splitCharAux sep rest []
      else splitCharAux sep rest (c :: acc)

/-- JavaScript `split` on a one-character separator: empty segments between
consecutive separators are kept, and the result is never empty. -/
def splitChar (sep : Char) (cs : List Char) : List (List Char) :=
  splitCharAux sep cs []

/-- `replace(/\r\n/g, "\n").replace(/\r/g, "\n")`: CRLF becomes LF, then any
remaining CR becomes LF. -/
def normalizeNewlines : List Char → List Char
  | [] => []
  | '\r' :: '\n' :: rest => '\n' :: normalizeNewlines rest
  | '\r' :: rest => '\n' :: normalizeNewlines rest
  | c :: rest => c :: normalizeNewlines rest

/-- Character-wise ASCII lowering, the effect of the `i` regex flag on the
ASCII literals these patterns use. -/
def lowerList (cs : List Char) : List Char :=
  cs.map Char.toLower

/-- Does `pat` occur at the head of `cs`? -/
def startsWithChars : List Char → List Char → Bool
  | [], _ => true
  | _ :: _, [] => false
  | p :: ps, c :: cs => p == c && startsWithChars ps cs

/-- A parsed record: field names mapped to values in insertion order.
JavaScript objects keep string keys in insertion order (updating an
existing key in place); the export headers (`LVLI_EDID`, `LVLO_Reference`,
`Cond1`, ...) are never canonical integer strings, so insertion order
models `Object.keys` enumeration. -/
abbrev Record := List (String × String)

/-- `row[k] = v` on a JS object: update in place when the key exists,
append otherwise. -/
def setField : Record → String → String → Record
  | [], k, v => [(k, v)]
  | (k', v') :: rest, k, v =>
      if k' = k then (k', v) :: rest else (k', v') :: setField rest k v

/-- `row[k] ?? ""` (also covering `row.k || ""` for the string values these
records hold). -/
def getField : Record → String → String
  | [], _ => ""
  | (k', v) :: rest, k => if k' = k then v else getField rest k

/-- The loop body of `parseTSV`: assign `header[c] = (parts[c] ?? "").trim()`
for each header position in order. -/
def buildRowAux : List String → List String → Record → Record
  | [], _, row => row
  | h :: hs, [], row => buildRowAux hs [] (setField row h "")
  | h :: hs, p :: ps, row => buildRowAux hs ps (setField row h (jsTrim p))

/-- Build one record from the header names and the data line's parts. -/
def buildRow (header parts : List String) : Record :=
  buildRowAux header parts []

/-- `parseTSV`: normalize line endings, drop blank lines, treat the first
line as the trimmed header, and zip every further line's tab-separated
parts against the header positions. -/
def parseTSV (tsvText : String) : List Record :=
  let lines := (splitChar '\n' (normalizeNewlines tsvText.data)).filter
    (fun l => !(jsTrimList l).isEmpty)
  match lines with
  | [] => []
  | h :: rest =>
      let header := (splitChar '\t' h).map (fun cs => (⟨jsTrimList cs⟩ : String))
      rest.map (fun l => buildRow header ((splitChar '\t' l).map (fun cs => (⟨cs⟩ : String))))

example : parseTSV "A\tB\nx\ty\tz\tw" = [[("A", "x"), ("B", "y")]] := by decide

example : parseTSV "A\tB\tC\nx\ty" = [[("A", "x"), ("B", "y"), ("C", "")]] := by decide

/-- A file discovered by `listFilesRecursive`, reduced to what the selector
inspects: the base filename and the `mtimeMs` stat. -/
structure FileEnt where
  basename : String
  mtimeMs : Int
deriving DecidableEq

/-- The observable state of the `tsv/` directory tree: whether the root
exists, and the recursively listed files when it does. -/
structure TsvTree where
  tsvRootExists : Bool
  files : List FileEnt

/-- The two fatal error kinds of the tool (thrown as `Error` in the source,
named `NotFoundError` and `MissingListError` by the spec). -/
inductive ToolError where
  | notFound
  | missingList
deriving DecidableEq

/-- Characters matchable by an unflagged regex `.`: everything except the
four line terminators. -/
def isRegexDot (c : Char) : Bool :=
  !(c = '\n' || c = '\r' || c = '\u2028' || c = '\u2029')

/-- Lowercased left literal of `/LVLI_Export_.*_LVLI_Entries\.tsv$/i`. -/
def lvliPatLeft : List Char := "lvli_export_".data

/-- Lowercased right literal of the same pattern, anchored at the end. -/
def lvliPatRight : List Char := "_lvli_entries.tsv".data

/-- After the left literal has matched, can `.*` consume characters until
the rest of the name is exactly the right literal? -/
def lvliTailScan : List Char → Bool
  | [] => false
  | c :: rest => (c :: rest) == lvliPatRight || (isRegexDot c && lvliTailScan rest)

/-- Unanchored scan for the whole filename pattern over a lowercased name. -/
def lvliScan : List Char → Bool
  | [] => false
  | c :: rest =>
      (startsWithChars lvliPatLeft (c :: rest) && lvliTailScan ((c :: rest).drop 12))
      || lvliScan rest

/-- `/LVLI_Export_.*_LVLI_Entries\.tsv$/i.test(path.basename(p))`. -/
def matchesLvliName (s : String) : Bool :=
  lvliScan (lowerList s.data)

/-- One step of the descending-by-mtime insertion sort modelling
`matches.sort((a, b) => b.mtimeMs - a.mtimeMs)`. -/
def insertByMtime (f : FileEnt) : List FileEnt → List FileEnt
  | [] => [f]
  | g :: rest =>
      if g.mtimeMs ≤ f.mtimeMs then f :: g :: rest else g :: insertByMtime f rest

/-- Sort files by modification time, newest first. -/
def sortByMtimeDesc : List FileEnt → List FileEnt
  | [] => []
  | f :: rest => insertByMtime f (sortByMtimeDesc rest)

/-- `pickLatestLvliEntriesTsv`: fail when the `tsv/` root is missing or no
file matches the naming convention, otherwise return the newest match. -/
def pickLatestLvliEntriesTsv (t : TsvTree) : Except ToolError FileEnt :=
  if t.tsvRootExists = false then .error .notFound
  else
    let ms := t.files.filter (fun f => matchesLvliName f.basename)
    if ms.isEmpty then .error .notFound
    else
      match sortByMtimeDesc ms with
      | [] => .error .notFound
      | f :: _ => .ok f

example : matchesLvliName "LVLI_Export_Feb_2026_LVLI_Entries.tsv" = true := by decide
example : matchesLvliName "LVLI_Export_notes.txt" = false := by decide

/-- ASCII lowercase letter, the regex class `[a-z]`. -/
def isAsciiLower (c : Char) : Bool := 'a' ≤ c && c ≤ 'z'

/-- ASCII uppercase letter, the regex class `[A-Z]`. -/
def isAsciiUpper (c : Char) : Bool := 'A' ≤ c && c ≤ 'Z'

/-- ASCII digit, the regex class `\d`. -/
def isDigitChar (c : Char) : Bool := '0' ≤ c && c ≤ '9'

/-- Regex word character `[A-Za-z0-9_]`, as used by `\b` and the keyword
token class. -/
def isWordChar (c : Char) : Bool :=
  isAsciiLower c || isAsciiUpper c || isDigitChar c || c = '_'

/-- `replace(/([a-z])([A-Z])/g, "$1 $2")`: left-to-right, non-overlapping;
each match consumes both letters, so scanning resumes after the inserted
pair. -/
def camelSpace : List Char → List Char
  | [] => []
  | [c] => [c]
  | c1 :: c2 :: rest =>
      if isAsciiLower c1 && isAsciiUpper c2 then c1 :: ' ' :: c2 :: camelSpace rest
      else c1 :: camelSpace (c2 :: rest)

/-- `replace(/^LocRegion/i, "")`: strip the nine-character reserved prefix
when it matches case-insensitively at the start. -/
def stripLocRegionCI (cs : List Char) : List Char :=
  if lowerList (cs.take 9) = "locregion".data then cs.drop 9 else cs

/-- `prettyFromLocRegion`: trim, strip the reserved prefix, insert camel-case
word boundaries, trim again. -/
def prettyFromLocRegion (keyword : String) : String :=
  ⟨jsTrimList (camelSpace (stripLocRegionCI (jsTrimList keyword.data)))⟩

example : prettyFromLocRegion "LocRegionForestFloodlands" = "Forest Floodlands" := by decide

/-- Attempt of `/:([^:]+):FISH\b/i` at the head of the list: a colon, a
nonempty greedy run of non-colon characters, a colon, `FISH`
case-insensitively, then a word boundary.  Returns the captured run. -/
def fishRefAt : List Char → Option (List Char)
  | ':' :: rest =>
      let run := rest.takeWhile (fun c => c != ':')
      let after := rest.dropWhile (fun c => c != ':')
      if run.isEmpty then none
      else
        match after with
        | ':' :: f1 :: f2 :: f3 :: f4 :: rest2 =>
            if lowerList [f1, f2, f3, f4] = "fish".data &&
               (match rest2 with | [] => true | c :: _ => !isWordChar c)
            then some run else none
        | _ => none
  | _ => none

/-- Leftmost match of `/:([^:]+):FISH\b/i`: try every start position. -/
def fishRefScan : List Char → Option (List Char)
  | [] => none
  | c :: rest =>
      match fishRefAt (c :: rest) with
      | some r => some r
      | none => fishRefScan rest

/-- `prettyFromFishRef`: capture the segment before the `FISH` type tag,
split it on underscores, keep the last token, and insert camel-case word
boundaries; empty string when the pattern is absent. -/
def prettyFromFishRef (lvloRef : String) : String :=
  match fishRefScan lvloRef.data with
  | none => ""
  | some edid =>
      let parts := splitChar '_' edid
      let last := (parts.getLast?).getD []
      ⟨jsTrimList (camelSpace last)⟩

example :
    prettyFromFishRef "0080070C:Fishing_Fish_Small_Axolotl01_CharcoalAxolotl:FISH"
      = "Charcoal Axolotl" := by decide

example : prettyFromFishRef "0080070C:Lunchbox_Thing:MISC" = "" := by decide

/-- Hex digit of the lowercased haystack, the regex class `[0-9A-F]` under
the `i` flag. -/
def isHexLower (c : Char) : Bool :=
  isDigitChar c || ('a' ≤ c && c ≤ 'f')

/-- The exact marker tested with the case-sensitive
`s.includes("LCP_Fishing_Axolotl_MonthlyIndex")`. -/
def markerChars : List Char := "LCP_Fishing_Axolotl_MonthlyIndex".data

/-- Case-sensitive substring test, `String.prototype.includes`. -/
def containsSub (pat : List Char) : List Char → Bool
  | [] => pat.isEmpty
  | c :: rest => startsWithChars pat (c :: rest) || containsSub pat rest

/-- Tail of the numeral pattern `\.000000\b`: a dot, six zeros, then a word
boundary (end of input or a non-word character). -/
def dotZeroBoundary : List Char → Bool
  | '.' :: '0' :: '0' :: '0' :: '0' :: '0' :: '0' :: rest =>
      match rest with
      | [] => true
      | c :: _ => !isWordChar c
  | _ => false

/-- Lazy scan of `.*?(\d+)\.000000\b`: at each position try a maximal digit
run followed by the fractional suffix; otherwise consume one `.`-matchable
character and continue.  A line terminator stops the scan, as `.` cannot
cross it. -/
def monthNumScan : List Char → Option (List Char)
  | [] => none
  | c :: rest =>
      let ds := (c :: rest).takeWhile isDigitChar
      let after := (c :: rest).dropWhile isDigitChar
      if !ds.isEmpty && dotZeroBoundary after then some ds
      else if isRegexDot c then monthNumScan rest
      else none

/-- Continuation of the month regex after its `MonthlyIndex` literal:
`\s+\[GLOB:[0-9A-F]+\]` and then the lazy numeral scan.  Operates on the
lowercased haystack. -/
def monthAfterIdx (cs : List Char) : Option (List Char) :=
  let ws := cs.takeWhile isJsWhite
  let cs1 := cs.dropWhile isJsWhite
  if ws.isEmpty then none
  else if startsWithChars "[glob:".data cs1 then
    let cs2 := cs1.drop 6
    let hex := cs2.takeWhile isHexLower
    let cs3 := cs2.dropWhile isHexLower
    if hex.isEmpty then none
    else
      match cs3 with
      | ']' :: cs4 => monthNumScan cs4
      | _ => none
  else none

/-- Leftmost match of
`/MonthlyIndex\s+\[GLOB:[0-9A-F]+\].*?(\d+)\.000000\b/i` over a lowercased
haystack: at each occurrence of the literal, try the continuation; on
failure resume one character later. -/
def monthScan : List Char → Option (List Char)
  | [] => none
  | c :: rest =>
      if startsWithChars "monthlyindex".data (c :: rest) then
        match monthAfterIdx ((c :: rest).drop 12) with
        | some ds => some ds
        | none => monthScan rest
      else monthScan rest

/-- `Number` applied to the captured digit run.  The runtime value is an
IEEE double, exact for every literal these exports hold; the embedding
keeps the exact natural number. -/
def digitsToNat (ds : List Char) : Nat :=
  ds.foldl (fun n c => n * 10 + (c.toNat - 48)) 0

/-- The whole month regex applied to one condition field's text. -/
def monthRegexMatch (s : String) : Option Nat :=
  (monthScan (lowerList s.data)).map digitsToNat

/-- `/^Cond\d+$/i`: the condition-slot naming convention for field names. -/
def isCondKey (k : String) : Bool :=
  match lowerList k.data with
  | 'c' :: 'o' :: 'n' :: 'd' :: rest => !rest.isEmpty && rest.all isDigitChar
  | _ => false

/-- `extractMonthIndex`: walk the record's fields in enumeration order; in
every nonempty condition field containing the marker, run the month regex
and return its first successful capture; otherwise keep scanning. -/
def extractMonthIndex : Record → Option Nat
  | [] => none
  | (k, v) :: rest =>
      if isCondKey k && v != "" && containsSub markerChars v.data then
        match monthRegexMatch v with
        | some n => some n
        | none => extractMonthIndex rest
      else extractMonthIndex rest

example :
    monthRegexMatch "Subject.GetGlobalValue LCP_Fishing_Axolotl_MonthlyIndex [GLOB:00123456] = 7.000000 AND"
      = some 7 := by decide

/-- The case-sensitive reserved token head of the keyword pattern. -/
def locRegionPat : List Char := "LocRegion".data

/-- Attempt of `LocRegion[A-Za-z0-9_]+\s+\[KYWD:` at the head of the list
(the `\b` before it is checked by the caller).  Returns the captured
token. -/
def kywdTryAt (cs : List Char) : Option (List Char) :=
  if startsWithChars locRegionPat cs then
    let cs1 := cs.drop 9
    let run := cs1.takeWhile isWordChar
    let cs2 := cs1.dropWhile isWordChar
    if run.isEmpty then none
    else
      let ws := cs2.takeWhile isJsWhite
      let cs3 := cs2.dropWhile isJsWhite
      if ws.isEmpty then none
      else if startsWithChars "[KYWD:".data cs3 then some (locRegionPat ++ run)
      else none
  else none

/-- Leftmost match of `/\b(LocRegion[A-Za-z0-9_]+)\s+\[KYWD:/`, tracking
whether the previous character was a word character so that `\b` holds. -/
def kywdScanAux : Bool → List Char → Option (List Char)
  | _, [] => none
  | prevW, c :: rest =>
      if !prevW then
        match kywdTryAt (c :: rest) with
        | some r => some r
        | none => kywdScanAux (isWordChar c) rest
      else kywdScanAux (isWordChar c) rest

/-- First keyword-token match in one condition field's text
(`s.match(re)` without the global flag returns only the first match). -/
def kywdFirstMatch (s : String) : Option (List Char) :=
  kywdScanAux false s.data

/-- `regions.add(pretty)` on a JS `Set`: keep first-seen insertion order,
ignore a value already present. -/
def addUnique (acc : List String) (s : String) : List String :=
  if s ∈ acc then acc else acc ++ [s]

/-- The loop of `extractRegions` with its accumulated `Set` made explicit. -/
def extractRegionsAux : Record → List String → List String
  | [], acc => acc
  | (k, v) :: rest, acc =>
      if isCondKey k && v != "" then
        match kywdFirstMatch v with
        | some kw =>
            let pretty := prettyFromLocRegion ⟨kw⟩
            if pretty != "" then extractRegionsAux rest (addUnique acc pretty)
            else extractRegionsAux rest acc
        | none => extractRegionsAux rest acc
      else extractRegionsAux rest acc

/-- `extractRegions`: one keyword token per condition field, deduplicated
across fields in first-seen order. -/
def extractRegions (row : Record) : List String :=
  extractRegionsAux row []

example :
    kywdFirstMatch "Subject.HasKeyword LocRegionBurningSprings [KYWD:007AE59D] OR"
      = some "LocRegionBurningSprings".data := by decide

/-- One value of the assembled `months` object (`image` is always null at
this layer). -/
structure RotationEntry where
  name : String
  regions : List String
  image : Option String
deriving DecidableEq

/-- The entry built for one matching record in `main`'s loop: the derived
display name with the `"TBA"` fallback, the extracted tags, no image. -/
def mkEntry (r : Record) : RotationEntry :=
  let n := prettyFromFishRef (getField r "LVLO_Reference")
  { name := if n = "" then "TBA" else n
    regions := extractRegions r
    image := none }

/-- The record's month index after `main`'s guard
`if (!idx || idx < 1 || idx > 12) continue`. -/
def validMonthIndex (r : Record) : Option Nat :=
  match extractMonthIndex r with
  | none => none
  | some i => if i = 0 ∨ i < 1 ∨ i > 12 then none else some i

/-- The assembled rotation table.  The source keys the object by the
decimal string `String(idx)`, injective on these indices, so the embedding
keys by the index itself. -/
abbrev RotationTable := List (Nat × RotationEntry)

/-- `months[String(idx)] = entry`: replace the value in place when the key
exists, append otherwise. -/
def upsert : RotationTable → Nat → RotationEntry → RotationTable
  | [], k, v => [(k, v)]
  | (k', v') :: rest, k, v =>
      if k' = k then (k', v) :: rest else (k', v') :: upsert rest k v

/-- The record loop of `main` with the accumulated table made explicit. -/
def buildMonthsAux : List Record → RotationTable → RotationTable
  | [], acc => acc
  | r :: rest, acc =>
      match validMonthIndex r with
      | none => buildMonthsAux rest acc
      | some idx => buildMonthsAux rest (upsert acc idx (mkEntry r))

/-- The `months` table assembled from the filtered records. -/
def buildMonths (rs : List Record) : RotationTable :=
  buildMonthsAux rs []

/-- Table lookup by month index. -/
def lookupMonth : RotationTable → Nat → Option RotationEntry
  | [], _ => none
  | (k, v) :: rest, i => if k = i then some v else lookupMonth rest i

/-- The target list identifier `main` filters on. -/
def targetListEdid : String := "Fishing_LLS_FishCollection_Axolotls"

/-- `String(r.LVLI_EDID || "").trim() === "Fishing_LLS_FishCollection_Axolotls"`. -/
def isAxoRow (r : Record) : Bool :=
  jsTrim (getField r "LVLI_EDID") == targetListEdid

/-- Lines 135-155 of `main`: filter the parsed rows to the target list,
fail when none match, otherwise assemble the table. -/
def buildTable (rows : List Record) : Except ToolError RotationTable :=
  let axoRows := rows.filter isAxoRow
  if axoRows.isEmpty then .error .missingList
  else .ok (buildMonths axoRows)

/-! Sample condition texts and records, shaped like the LVLI export rows. -/

/-- A condition field carrying the monthly-index marker with numeral 7. -/
def cond7 : String :=
  "Subject.GetGlobalValue LCP_Fishing_Axolotl_MonthlyIndex [GLOB:00123456] = 7.000000 AND"

/-- The same condition with the out-of-range numeral 13. -/
def cond13 : String :=
  "Subject.GetGlobalValue LCP_Fishing_Axolotl_MonthlyIndex [GLOB:00123456] = 13.000000 AND"

/-- A condition carrying the marker but no bracketed global / numeral. -/
def condNoNum : String :=
  "Subject.GetGlobalValue LCP_Fishing_Axolotl_MonthlyIndex missing its numeral"

/-- A region-keyword condition with no monthly-index marker. -/
def condRegion : String :=
  "Subject.HasKeyword LocRegionBurningSprings [KYWD:007AE59D] OR"

/-- A reference string carrying the `FISH` type tag. -/
def fishRefGood : String :=
  "0080070C:Fishing_Fish_Small_Axolotl01_CharcoalAxolotl:FISH"

/-- A second `FISH` reference, for the duplicate-index experiment. -/
def fishRefGold : String :=
  "00800123:Fishing_Fish_Big_Axolotl02_GoldenAxolotl:FISH"

/-- A reference with no `FISH` tag segment. -/
def refNoFish : String := "0080070C:Lunchbox_Thing:MISC"

/-- A matching record whose condition yields month index 7. -/
def row7 : Record :=
  [("LVLI_EDID", targetListEdid), ("LVLO_Reference", fishRefGood), ("Cond1", cond7)]

/-- A matching record with the same month index but a different reference. -/
def row7b : Record :=
  [("LVLI_EDID", targetListEdid), ("LVLO_Reference", fishRefGold), ("Cond1", cond7)]

/-- A matching record whose condition carries the out-of-range numeral 13. -/
def row13 : Record :=
  [("LVLI_EDID", targetListEdid), ("LVLO_Reference", fishRefGood), ("Cond1", cond13)]

/-- A matching record none of whose condition fields carries the marker. -/
def rowNoMarker : Record :=
  [("LVLI_EDID", targetListEdid), ("LVLO_Reference", fishRefGood), ("Cond1", condRegion)]

/-- C1.  A condition field containing the monthly-index marker followed by
the numeral `7.000000` yields month index 7; the numeral `13.000000` is
parsed by the extractor but rejected as out of range by the assembler's
guard, so the record's month index is undefined; a record with no
marker-carrying condition field yields undefined. -/
theorem c1_month_index_extraction :
    extractMonthIndex row7 = some 7 ∧ validMonthIndex row7 = some 7 ∧
    validMonthIndex row13 = none ∧
    extractMonthIndex rowNoMarker = none ∧ validMonthIndex rowNoMarker = none := by
  decide

/-- A record whose first condition field parses to the out-of-range 13 and
whose second parses to the valid 7. -/
def rowThirteenThenSeven : Record :=
  [("LVLI_EDID", targetListEdid), ("Cond1", cond13), ("Cond2", cond7)]

/-- C2 counterexample.  The claim predicts that an out-of-range parse in an
earlier condition field leaves that field undefined and scanning continues,
so this record should yield month index 7 from its second field.  The code
instead returns the first parsed numeral 13 at once, and the assembler's
range guard then drops the record entirely. -/
theorem c2_counterexample :
    extractMonthIndex rowThirteenThenSeven = some 13 ∧
    validMonthIndex rowThirteenThenSeven = none := by
  decide

/-- C2 as amended.  Scanning continues across the remaining condition
fields only when a marker-carrying field yields no numeral match; when the
numeral pattern does match, its parsed value is returned immediately --
even when it lies outside `[1, 12]` -- and later fields are not consulted. -/
theorem c2_amended : ∀ (k v : String) (rest : Record),
    isCondKey k = true → containsSub markerChars v.data = true → (v != "") = true →
    (monthRegexMatch v = none →
      extractMonthIndex ((k, v) :: rest) = extractMonthIndex rest) ∧
    (∀ n, monthRegexMatch v = some n →
      extractMonthIndex ((k, v) :: rest) = some n) := by
  intro k v rest hk hm hv
  constructor
  · intro hnone
    simp [extractMonthIndex, hk, hm, hv, hnone]
  · intro n hsome
    simp [extractMonthIndex, hk, hm, hv, hsome]

/-- C2 witness: a marker-carrying field with no numeral is skipped and
scanning continues; a field parsing to 13 ends the scan with value 13. -/
theorem c2_amended_witness :
    extractMonthIndex [("Cond1", condNoNum), ("Cond2", cond7)]
      = extractMonthIndex [("Cond2", cond7)] ∧
    extractMonthIndex [("Cond1", cond13)] = some 13 :=
  ⟨(c2_amended "Cond1" condNoNum [("Cond2", cond7)]
      (by decide) (by decide) (by decide)).1 (by decide),
   (c2_amended "Cond1" cond13 []
      (by decide) (by decide) (by decide)).2 13 (by decide)⟩

/-- A single condition field holding two distinct region tokens. -/
def condTwoRegions : String :=
  "Subject.HasKeyword LocRegionBurningSprings [KYWD:007AE59D] OR Subject.HasKeyword LocRegionForestFloodlands [KYWD:0042B722]"

/-- A record with that two-token condition field. -/
def rowTwoRegions : Record := [("Cond1", condTwoRegions)]

/-- C3 counterexample.  The claim predicts that both tags of a two-token
condition field appear in the record's tag set; the code runs the keyword
pattern without the global flag, so only the first token's tag
`"Burning Springs"` is collected and `"Forest Floodlands"` is dropped. -/
theorem c3_counterexample :
    extractRegions rowTwoRegions = ["Burning Springs"] := by
  decide

/-- C3 as amended.  Category-tag extraction collects at most one token per
condition field: the leftmost match of the region pattern.  A field whose
first match is `kw` contributes exactly the tag derived from `kw`,
whatever else the field holds. -/
theorem c3_amended : ∀ (k v : String), isCondKey k = true → (v != "") = true →
    ∀ kw, kywdFirstMatch v = some kw →
    extractRegions [(k, v)] =
      (if prettyFromLocRegion ⟨kw⟩ = "" then [] else [prettyFromLocRegion ⟨kw⟩]) := by
  intro k v hk hv kw hkw
  by_cases hp : prettyFromLocRegion ⟨kw⟩ = ""
  · simp [extractRegions, extractRegionsAux, hk, hv, hkw, hp]
  · simp [extractRegions, extractRegionsAux, hk, hv, hkw, hp, addUnique]

/-- C3 witness: on the two-token field the first match is the
`LocRegionBurningSprings` token and the only collected tag is its
derived form. -/
theorem c3_amended_witness :
    kywdFirstMatch condTwoRegions = some "LocRegionBurningSprings".data ∧
    extractRegions [("Cond1", condTwoRegions)] = ["Burning Springs"] :=
  ⟨by decide,
   (c3_amended "Cond1" condTwoRegions (by decide) (by decide)
      "LocRegionBurningSprings".data (by decide)).trans (by decide)⟩

/-- C6.  The sample `FISH` reference yields display name
`"Charcoal Axolotl"`; a reference with no `FISH` tag segment yields the
empty string, which the assembler's entry builder replaces by `"TBA"`. -/
theorem c6_name_derivation :
    prettyFromFishRef fishRefGood = "Charcoal Axolotl" ∧
    prettyFromFishRef refNoFish = "" ∧
    (mkEntry [("LVLO_Reference", refNoFish), ("Cond1", cond7)]).name = "TBA" := by
  decide

/-- A successfully validated month index lies in `[1, 12]`. -/
lemma validMonthIndex_range (r : Record) (i : Nat) (h : validMonthIndex r = some i) :
    1 ≤ i ∧ i ≤ 12 := by
  unfold validMonthIndex at h
  split at h
  · cases h
  · split at h
    · cases h
    · injection h with h'
      subst h'
      omega

/-- Membership after an upsert: the element was present before or is the
inserted pair. -/
lemma mem_upsert (t : RotationTable) (k : Nat) (v : RotationEntry) (a : Nat × RotationEntry)
    (h : a ∈ upsert t k v) : a ∈ t ∨ a = (k, v) := by
  induction t with
  | nil => simp [upsert] at h; simp [h]
  | cons p rest ih =>
      obtain ⟨k', v'⟩ := p
      by_cases hk : k' = k
      · simp [upsert, hk] at h
        rcases h with h | h
        · right; simp [h]
        · left; simp [h]
      · simp [upsert, hk] at h
        rcases h with h | h
        · left; simp [h]
        · rcases ih h with h' | h'
          · left; simp [h']
          · right; exact h'

/-- Every key of the accumulated table stays in `[1, 12]` through the
record loop. -/
lemma buildMonthsAux_keys (rs : List Record) :
    ∀ acc : RotationTable, (∀ p ∈ acc, 1 ≤ p.1 ∧ p.1 ≤ 12) →
    ∀ p ∈ buildMonthsAux rs acc, 1 ≤ p.1 ∧ p.1 ≤ 12 := by
  induction rs with
  | nil => intro acc hacc p hp; exact hacc p hp
  | cons r rest ih =>
      intro acc hacc p hp
      cases hv : validMonthIndex r with
      | none =>
          rw [show buildMonthsAux (r :: rest) acc = buildMonthsAux rest acc by
            simp [buildMonthsAux, hv]] at hp
          exact ih acc hacc p hp
      | some idx =>
          rw [show buildMonthsAux (r :: rest) acc
                = buildMonthsAux rest (upsert acc idx (mkEntry r)) by
            simp [buildMonthsAux, hv]] at hp
          refine ih (upsert acc idx (mkEntry r)) ?_ p hp
          intro q hq
          rcases mem_upsert acc idx (mkEntry r) q hq with h' | h'
          · exact hacc q h'
          · rw [h']; exact validMonthIndex_range r idx hv

/-- Records with no valid month index contribute nothing to the loop. -/
lemma buildMonthsAux_filter (rs : List Record) :
    ∀ acc, buildMonthsAux rs acc
      = buildMonthsAux (rs.filter (fun r => (validMonthIndex r).isSome)) acc := by
  induction rs with
  | nil => intro acc; rfl
  | cons r rest ih =>
      intro acc
      cases hv : validMonthIndex r with
      | none => simp [buildMonthsAux, hv, List.filter, ih]
      | some idx => simp [buildMonthsAux, hv, List.filter, ih]

/-- C4.  Every key of an assembled rotation table is a month index in
`[1, 12]`, and records from which no valid month index was recovered
contribute no entry: the table equals the one built from only the records
with a valid index. -/
theorem c4_table_keys : ∀ rs : List Record,
    (∀ (k : Nat) (e : RotationEntry), (k, e) ∈ buildMonths rs → 1 ≤ k ∧ k ≤ 12) ∧
    buildMonths rs = buildMonths (rs.filter (fun r => (validMonthIndex r).isSome)) := by
  intro rs
  constructor
  · intro k e hmem
    exact buildMonthsAux_keys rs [] (by simp) (k, e) hmem
  · exact buildMonthsAux_filter rs []

/-- C4 witness: index 7 of a sample table is in range, and dropping a
record with no valid index leaves a sample table unchanged. -/
theorem c4_table_keys_witness :
    (1 ≤ 7 ∧ 7 ≤ 12) ∧
    buildMonths [row7, rowNoMarker]
      = buildMonths (List.filter (fun r => (validMonthIndex r).isSome) [row7, rowNoMarker]) :=
  ⟨(c4_table_keys [row7]).1 7 (mkEntry row7) (by decide),
   (c4_table_keys [row7, rowNoMarker]).2⟩

/-- The last record of the list satisfying `p`, in input order. -/
def lastMatching (p : Record → Bool) : List Record → Option Record
  | [] => none
  | r :: rest =>
      match lastMatching p rest with
      | some r' => some r'
      | none => if p r then some r else none

/-- Lookup after an upsert: the inserted key maps to the new value, other
keys are untouched. -/
lemma lookup_upsert (t : RotationTable) (k : Nat) (v : RotationEntry) (i : Nat) :
    lookupMonth (upsert t k v) i = if k = i then some v else lookupMonth t i := by
  induction t with
  | nil => by_cases h : k = i <;> simp [upsert, lookupMonth, h]
  | cons p rest ih =>
      obtain ⟨k', v'⟩ := p
      by_cases hk : k' = k
      · subst hk
        by_cases hi : k' = i <;> simp [upsert, lookupMonth, hi]
      · by_cases hi : k' = i
        · subst hi
          have hne : k ≠ k' := fun h => hk h.symm
          simp [upsert, lookupMonth, hk, hne]
        · simp [upsert, lookupMonth, hk, hi, ih]

/-- The invariant of the record loop: the entry at key `k` comes from the
last processed record whose valid index is `k`, or from the accumulator. -/
lemma buildMonthsAux_lookup (rs : List Record) :
    ∀ (acc : RotationTable) (k : Nat),
    lookupMonth (buildMonthsAux rs acc) k =
      match lastMatching (fun r => validMonthIndex r == some k) rs with
      | some r => some (mkEntry r)
      | none => lookupMonth acc k := by
  induction rs with
  | nil => intro acc k; rfl
  | cons r rest ih =>
      intro acc k
      cases hv : validMonthIndex r with
      | none =>
          have hp : (validMonthIndex r == some k) = false := by simp [hv]
          rw [show buildMonthsAux (r :: rest) acc = buildMonthsAux rest acc by
            simp [buildMonthsAux, hv]]
          rw [ih acc k]
          cases hlast : lastMatching (fun r => validMonthIndex r == some k) rest <;>
            simp [lastMatching, hlast, hp]
      | some idx =>
          rw [show buildMonthsAux (r :: rest) acc
                = buildMonthsAux rest (upsert acc idx (mkEntry r)) by
            simp [buildMonthsAux, hv]]
          rw [ih (upsert acc idx (mkEntry r)) k]
          cases hlast : lastMatching (fun r => validMonthIndex r == some k) rest with
          | some r' => simp [lastMatching, hlast]
          | none =>
              by_cases hik : idx = k
              · subst hik
                have hp : (validMonthIndex r == some idx) = true := by simp [hv]
                simp [lastMatching, hlast, hp, lookup_upsert]
              · have hp : (validMonthIndex r == some k) = false := by simp [hv, hik]
                simp [lastMatching, hlast, hp, lookup_upsert, hik]

/-- C5.  Duplicate month indices resolve last-write-wins: the table's entry
at any index `k` is the one built from the last record in input order whose
valid month index is `k`; concretely, of two records both yielding index 7
the later record's entry is the one stored. -/
theorem c5_last_write_wins :
    (∀ (rs : List Record) (k : Nat),
      lookupMonth (buildMonths rs) k =
        (lastMatching (fun r => validMonthIndex r == some k) rs).map mkEntry) ∧
    lookupMonth (buildMonths [row7, row7b]) 7 = some (mkEntry row7b) := by
  constructor
  · intro rs k
    rw [show buildMonths rs = buildMonthsAux rs [] from rfl, buildMonthsAux_lookup rs [] k]
    cases hlast : lastMatching (fun r => validMonthIndex r == some k) rs <;>
      simp [hlast, lookupMonth]
  · decide

/-- Appending an unseen element preserves distinctness of the tag set. -/
lemma addUnique_nodup (l : List String) (s : String) (h : l.Nodup) :
    (addUnique l s).Nodup := by
  unfold addUnique
  by_cases hs : s ∈ l
  · simp [hs, h]
  · simp [hs, List.nodup_append, h]

/-- The region loop keeps its accumulated tag set distinct. -/
lemma extractRegionsAux_nodup (row : Record) :
    ∀ acc : List String, acc.Nodup → (extractRegionsAux row acc).Nodup := by
  induction row with
  | nil => intro acc h; exact h
  | cons p rest ih =>
      intro acc h
      obtain ⟨k, v⟩ := p
      by_cases hc : (isCondKey k && v != "") = true
      · cases hkw : kywdFirstMatch v with
        | none => simpa [extractRegionsAux, hc, hkw] using ih acc h
        | some kw =>
            by_cases hp : (prettyFromLocRegion ⟨kw⟩ != "") = true
            · simpa [extractRegionsAux, hc, hkw, hp] using
                ih (addUnique acc (prettyFromLocRegion ⟨kw⟩))
                  (addUnique_nodup acc (prettyFromLocRegion ⟨kw⟩) h)
            · simpa [extractRegionsAux, hc, hkw, hp] using ih acc h
      · simpa [extractRegionsAux, hc] using ih acc h

/-- A record with the same region token in two condition fields. -/
def rowDupRegion : Record :=
  [("Cond1", "Subject.HasKeyword LocRegionForestFloodlands [KYWD:0042B722] OR"),
   ("Cond2", "Subject.HasKeyword LocRegionForestFloodlands [KYWD:0042B722] AND")]

/-- C7.  A record's tag set never holds duplicates, and the same region
token observed in two different condition fields yields the single tag
`"Forest Floodlands"`. -/
theorem c7_tag_dedup :
    (∀ row : Record, (extractRegions row).Nodup) ∧
    extractRegions rowDupRegion = ["Forest Floodlands"] := by
  constructor
  · intro row
    exact extractRegionsAux_nodup row [] (by simp)
  · decide

/-- C8.  The assembler fails with the missing-list error exactly when no
parsed record carries the target list identifier, and succeeds with a
table exactly when at least one does. -/
theorem c8_missing_list : ∀ rows : List Record,
    (buildTable rows = Except.error ToolError.missingList ↔ rows.filter isAxoRow = []) ∧
    ((buildTable rows).isOk = true ↔ (rows.filter isAxoRow).isEmpty = false) := by
  intro rows
  unfold buildTable
  cases h : rows.filter isAxoRow with
  | nil => simp [h, Except.isOk, Except.toBool]
  | cons a t => simp [h, Except.isOk, Except.toBool]

/-- Insertion never yields the empty list. -/
lemma insertByMtime_ne_nil (l : List FileEnt) (f : FileEnt) : insertByMtime f l ≠ [] := by
  cases l with
  | nil => simp [insertByMtime]
  | cons g rest =>
      by_cases h : g.mtimeMs ≤ f.mtimeMs <;> simp [insertByMtime, h]

/-- Sorting an empty result means the input was empty. -/
lemma sortByMtimeDesc_nil (l : List FileEnt) (h : sortByMtimeDesc l = []) : l = [] := by
  cases l with
  | nil => rfl
  | cons f rest => exact absurd h (insertByMtime_ne_nil (sortByMtimeDesc rest) f)

/-- Membership through one insertion step. -/
lemma mem_insertByMtime (l : List FileEnt) (f a : FileEnt) :
    a ∈ insertByMtime f l ↔ a = f ∨ a ∈ l := by
  induction l with
  | nil => simp [insertByMtime]
  | cons g rest ih =>
      by_cases h : g.mtimeMs ≤ f.mtimeMs
      · simp [insertByMtime, h]
      · simp [insertByMtime, h, ih]
        tauto

/-- Sorting permutes membership. -/
lemma mem_sortByMtimeDesc (l : List FileEnt) (a : FileEnt) :
    a ∈ sortByMtimeDesc l ↔ a ∈ l := by
  induction l with
  | nil => simp [sortByMtimeDesc]
  | cons f rest ih => simp [sortByMtimeDesc, mem_insertByMtime, ih]

/-- The head of the descending sort has the greatest modification time. -/
lemma sortByMtimeDesc_head_max (l : List FileEnt) :
    ∀ g t, sortByMtimeDesc l = g :: t → ∀ x ∈ l, x.mtimeMs ≤ g.mtimeMs := by
  induction l with
  | nil => intro g t h; cases h
  | cons f rest ih =>
      intro g t h x hx
      rw [List.mem_cons] at hx
      cases hs : sortByMtimeDesc rest with
      | nil =>
          have hrest : rest = [] := sortByMtimeDesc_nil rest hs
          subst hrest
          simp [sortByMtimeDesc, insertByMtime] at h
          rcases hx with hx | hx
          · simp [← h.1, hx]
          · cases hx
      | cons y ys =>
          rw [show sortByMtimeDesc (f :: rest) = insertByMtime f (y :: ys) by
            simp [sortByMtimeDesc, hs]] at h
          have hy : ∀ x ∈ rest, x.mtimeMs ≤ y.mtimeMs := ih y ys hs
          by_cases hc : y.mtimeMs ≤ f.mtimeMs
          · rw [show insertByMtime f (y :: ys) = f :: y :: ys by
              simp [insertByMtime, hc]] at h
            injection h with h1 h2
            subst h1
            rcases hx with hx | hx
            · simp [hx]
            · exact le_trans (hy x hx) hc
          · rw [show insertByMtime f (y :: ys) = y :: insertByMtime f ys by
              simp [insertByMtime, hc]] at h
            injection h with h1 h2
            subst h1
            rcases hx with hx | hx
            · subst hx; omega
            · exact hy x hx

/-- C9.  The selector fails when the `tsv/` root does not exist or when no
file matches the naming convention; when it succeeds, the returned file is
a matching file of greatest modification timestamp. -/
theorem c9_pick_latest : ∀ t : TsvTree,
    (t.tsvRootExists = false →
      pickLatestLvliEntriesTsv t = Except.error ToolError.notFound) ∧
    (t.files.filter (fun f => matchesLvliName f.basename) = [] →
      pickLatestLvliEntriesTsv t = Except.error ToolError.notFound) ∧
    (∀ f, pickLatestLvliEntriesTsv t = Except.ok f →
      f ∈ t.files.filter (fun g => matchesLvliName g.basename) ∧
      ∀ g ∈ t.files.filter (fun g => matchesLvliName g.basename),
        g.mtimeMs ≤ f.mtimeMs) := by
  intro t
  refine ⟨?_, ?_, ?_⟩
  · intro h
    simp [pickLatestLvliEntriesTsv, h]
  · intro h
    by_cases hr : t.tsvRootExists = false
    · simp [pickLatestLvliEntriesTsv, hr]
    · simp [pickLatestLvliEntriesTsv, hr, h]
  · intro f hf
    unfold pickLatestLvliEntriesTsv at hf
    by_cases hr : t.tsvRootExists = false
    · rw [if_pos hr] at hf; cases hf
    · rw [if_neg hr] at hf
      by_cases he : (t.files.filter (fun g => matchesLvliName g.basename)).isEmpty = true
      · rw [if_pos he] at hf; cases hf
      · rw [if_neg he] at hf
        cases hs : sortByMtimeDesc (t.files.filter (fun g => matchesLvliName g.basename)) with
        | nil => rw [hs] at hf; cases hf
        | cons y ys =>
            rw [hs] at hf
            have hfy : y = f := by injection hf
            rw [hfy] at hs
            constructor
            · have hmem :
                  f ∈ sortByMtimeDesc (t.files.filter (fun g => matchesLvliName g.basename)) := by
                rw [hs]
                exact List.mem_cons_self f ys
              exact (mem_sortByMtimeDesc _ f).mp hmem
            · exact sortByMtimeDesc_head_max _ f ys hs

/-- Three candidate export files with modification times 1 < 2 < 3. -/
def fileJan : FileEnt := ⟨"LVLI_Export_Jan_2026_LVLI_Entries.tsv", 1⟩

/-- The middle candidate. -/
def fileFeb : FileEnt := ⟨"LVLI_Export_Feb_2026_LVLI_Entries.tsv", 2⟩

/-- The newest candidate. -/
def fileMar : FileEnt := ⟨"LVLI_Export_Mar_2026_LVLI_Entries.tsv", 3⟩

/-- A directory tree holding the three candidates. -/
def demoTree : TsvTree := ⟨true, [fileJan, fileFeb, fileMar]⟩

/-- C9 witness: among timestamps 1 < 2 < 3 the selector returns the file
with timestamp 3, a matching file of maximal modification time. -/
theorem c9_pick_latest_witness :
    pickLatestLvliEntriesTsv demoTree = Except.ok fileMar ∧
    fileMar ∈ demoTree.files.filter (fun g => matchesLvliName g.basename) ∧
    ∀ g ∈ demoTree.files.filter (fun g => matchesLvliName g.basename),
      g.mtimeMs ≤ fileMar.mtimeMs :=
  have h : pickLatestLvliEntriesTsv demoTree = Except.ok fileMar := by rfl
  ⟨h, (c9_pick_latest demoTree).2.2 fileMar h⟩

/-- Keys after assigning a fresh field: the new name lands at the end. -/
lemma setField_keys_new (row : Record) (k v : String) (h : k ∉ row.map Prod.fst) :
    (setField row k v).map Prod.fst = row.map Prod.fst ++ [k] := by
  induction row with
  | nil => simp [setField]
  | cons p rest ih =>
      obtain ⟨k', v'⟩ := p
      have hne : ¬ k' = k := by
        intro hh; exact h (by simp [hh])
      have h' : k ∉ rest.map Prod.fst := by
        intro hh; exact h (by simp [hh])
      simp [setField, hne, ih h']

/-- Fields added later in the header stay fresh after one assignment. -/
lemma fresh_after_setField (row : Record) (h : String) (hs' : List String) (v : String)
    (hfresh : ∀ x ∈ h :: hs', x ∉ row.map Prod.fst)
    (hnotin : h ∉ row.map Prod.fst) (hne : h ∉ hs') :
    ∀ x ∈ hs', x ∉ (setField row h v).map Prod.fst := by
  intro x hx hmem
  rw [setField_keys_new row h v hnotin, List.mem_append] at hmem
  rcases hmem with hmem | hmem
  · exact hfresh x (List.mem_cons_of_mem h hx) hmem
  · rw [List.mem_singleton] at hmem
    exact hne (hmem ▸ hx)

/-- The row loop writes exactly the header names, in order, when they are
distinct and fresh. -/
lemma buildRowAux_keys (hs : List String) :
    ∀ (parts : List String) (row : Record),
    (∀ h ∈ hs, h ∉ row.map Prod.fst) → hs.Nodup →
    (buildRowAux hs parts row).map Prod.fst = row.map Prod.fst ++ hs := by
  induction hs with
  | nil => intro parts row _ _; simp [buildRowAux]
  | cons h hs' ih =>
      intro parts row hfresh hnd
      have hnotin : h ∉ row.map Prod.fst := hfresh h (by simp)
      have hnd' : hs'.Nodup := (List.nodup_cons.mp hnd).2
      have hne : h ∉ hs' := (List.nodup_cons.mp hnd).1
      cases parts with
      | nil =>
          rw [show buildRowAux (h :: hs') [] row = buildRowAux hs' [] (setField row h "") from rfl]
          rw [ih [] (setField row h "")
                (fresh_after_setField row h hs' "" hfresh hnotin hne) hnd']
          rw [setField_keys_new row h "" hnotin]
          simp
      | cons p ps =>
          rw [show buildRowAux (h :: hs') (p :: ps) row
                = buildRowAux hs' ps (setField row h (jsTrim p)) from rfl]
          rw [ih ps (setField row h (jsTrim p))
                (fresh_after_setField row h hs' (jsTrim p) hfresh hnotin hne) hnd']
          rw [setField_keys_new row h (jsTrim p) hnotin]
          simp

/-- The row loop never reads parts beyond the header length. -/
lemma buildRowAux_take (hs : List String) :
    ∀ (parts : List String) (row : Record),
    buildRowAux hs parts row = buildRowAux hs (parts.take hs.length) row := by
  induction hs with
  | nil => intro parts row; rfl
  | cons h hs' ih =>
      intro parts row
      cases parts with
      | nil => rfl
      | cons p ps =>
          rw [show buildRowAux (h :: hs') (p :: ps) row
                = buildRowAux hs' ps (setField row h (jsTrim p)) from rfl]
          rw [show (p :: ps).take (h :: hs').length = p :: ps.take hs'.length by simp]
          rw [show buildRowAux (h :: hs') (p :: ps.take hs'.length) row
                = buildRowAux hs' (ps.take hs'.length) (setField row h (jsTrim p)) from rfl]
          exact ih ps (setField row h (jsTrim p))

/-- C10.  A data line with more delimiter-separated values than the header
has field names loses its extra trailing values: the built record equals
the one built from the first `header.length` values, its keys are exactly
the header names (when those are distinct), and the parser accepts such a
line without failing. -/
theorem c10_extra_values : ∀ (header parts : List String),
    buildRow header parts = buildRow header (parts.take header.length) ∧
    (header.Nodup → (buildRow header parts).map Prod.fst = header) ∧
    parseTSV "A\tB\nx\ty\tz\tw" = [[("A", "x"), ("B", "y")]] := by
  intro header parts
  refine ⟨buildRowAux_take header parts [], ?_, by decide⟩
  intro hnd
  have := buildRowAux_keys header parts [] (by simp) hnd
  simpa [buildRow] using this

/-- C10 witness: a three-value line against a two-name header keeps the two
header fields only. -/
theorem c10_extra_values_witness :
    buildRow ["A", "B"] ["x", "y", "z"] = buildRow ["A", "B"] (["x", "y", "z"].take 2) ∧
    (buildRow ["A", "B"] ["x", "y", "z"]).map Prod.fst = ["A", "B"] :=
  ⟨(c10_extra_values ["A", "B"] ["x", "y", "z"]).1,
   (c10_extra_values ["A", "B"] ["x", "y", "z"]).2.1 (by decide)⟩

end Dfbnb
